import Mathlib

/-!
Verification of the retrieval core and frontend handlers of a PDF RAG chat
application.

The repository consists of a Next.js frontend (a general chat page with a
streaming reader, a combined chat/upload page, and a PDF chat page) together
with documentation of a FastAPI retrieval backend built on the `aimakerspace`
library (character chunker, in-memory vector index with cosine-similarity
search, session store, RAG orchestrator).

The frontend handlers are embedded directly from the TypeScript sources.
The retrieval core (chunker, vector index, session store, upload/chat
endpoints) is not part of the delivered sources, so those definitions are
modelled from the specification; each such definition carries a doc comment
saying so.

Numeric convention: embedding coordinates are embedded as exact rationals.
Cosine similarity `dot(a,b) / (norm(a)*norm(b))` involves a square root, so
instead of the real-valued cosine each stored score is its order-faithful
rational encoding `simKey a b = sign(dot) * dot^2 / (normSq a * normSq b)`
(with the zero-norm convention mapping to 0).  The map `t ↦ t * |t|` is a
strictly monotone bijection of ℝ, hence ranking, ties, maximality at 1 and
the zero-score convention are exactly the same as for the real cosine; the
lemmas `keyFun_cast`, `keyFun_le_keyFun_iff` and `simKey_le_simKey_iff`
below prove this correspondence against `Real.sqrt`.
-/

namespace Rag

/-! ## Embeddings and cosine similarity (modelled from the spec) -/

/-- Modelled from the spec: dot product of two embeddings (§4.3, `dot(a,b)`);
embeddings are fixed-length sequences of numbers (§3), embedded as `List ℚ`. -/
def dot : List ℚ → List ℚ → ℚ
  | [], _ => 0
  | _, [] => 0
  | x :: xs, y :: ys => x * y + dot xs ys

/-- Modelled from the spec: squared Euclidean norm of an embedding,
`norm(a)^2` (§4.3). -/
def normSq (a : List ℚ) : ℚ := dot a a

/-- Modelled from the spec: the score quotient `x / sqrt d` with the
zero-denominator convention (§4.3: zero-vector embeddings score 0 rather
than dividing by zero), stored through the order-faithful signed-square
encoding `sign(x) * x^2 / d`. -/
def keyFun (x d : ℚ) : ℚ := if d = 0 then 0 else x * |x| / d

/-- Modelled from the spec: the similarity score
`score = dot(a,b) / (norm(a) * norm(b))` (§4.3), stored through the
order-faithful signed-square encoding `keyFun`; zero-norm embeddings score
0 against any query. -/
def simKey (a b : List ℚ) : ℚ := keyFun (dot a b) (normSq a * normSq b)

theorem dot_nil_left (b : List ℚ) : dot [] b = 0 := by cases b <;> rfl

theorem dot_nil_right (a : List ℚ) : dot a [] = 0 := by cases a <;> rfl

theorem dot_cons (x y : ℚ) (xs ys : List ℚ) :
    dot (x :: xs) (y :: ys) = x * y + dot xs ys := rfl

theorem normSq_nil : normSq [] = 0 := rfl

theorem normSq_cons (x : ℚ) (xs : List ℚ) :
    normSq (x :: xs) = x * x + normSq xs := rfl

theorem normSq_nonneg (a : List ℚ) : 0 ≤ normSq a := by
  induction a with
  | nil => simp [normSq_nil]
  | cons x xs ih =>
      rw [normSq_cons]
      nlinarith [mul_self_nonneg x]

/-- Cauchy–Schwarz for list dot products. -/
theorem dot_sq_le (a b : List ℚ) : dot a b ^ 2 ≤ normSq a * normSq b := by
  induction a generalizing b with
  | nil =>
      rw [dot_nil_left, normSq_nil]
      simp
  | cons x xs ih =>
      cases b with
      | nil =>
          rw [dot_nil_right, normSq_nil]
          simp
      | cons y ys =>
          have hA := normSq_nonneg xs
          have hB := normSq_nonneg ys
          have hIH := ih ys
          rw [dot_cons, normSq_cons, normSq_cons]
          set d := dot xs ys with hd
          set A := normSq xs with hA'
          set B := normSq ys with hB'
          have h1 : (2 * x * y * d) ^ 2 ≤ (x * x * B + A * (y * y)) ^ 2 := by
            nlinarith [sq_nonneg (x * x * B - A * (y * y)),
              mul_nonneg (mul_nonneg (mul_self_nonneg x) (mul_self_nonneg y))
                (sub_nonneg.mpr hIH)]
          have h2 : 0 ≤ x * x * B + A * (y * y) := by
            have := mul_nonneg (mul_self_nonneg x) hB
            have := mul_nonneg hA (mul_self_nonneg y)
            linarith
          have h3 : 2 * x * y * d ≤ x * x * B + A * (y * y) := by
            rcases le_or_lt (2 * x * y * d) 0 with hw | hw
            · linarith
            · nlinarith [h1, h2, hw]
          nlinarith [h3, hIH]

theorem simKey_le_one (a b : List ℚ) : simKey a b ≤ 1 := by
  rw [simKey, keyFun]
  by_cases h : normSq a * normSq b = 0
  · simp [h]
  · rw [if_neg h]
    have hden : 0 < normSq a * normSq b :=
      lt_of_le_of_ne (mul_nonneg (normSq_nonneg a) (normSq_nonneg b)) (Ne.symm h)
    rw [div_le_one hden]
    have h1 : dot a b * |dot a b| ≤ dot a b ^ 2 := by
      rcases abs_cases (dot a b) with ⟨he, _⟩ | ⟨he, _⟩
      · rw [he, sq]
      · rw [he]; nlinarith [sq_nonneg (dot a b)]
    exact le_trans h1 (dot_sq_le a b)

theorem simKey_self (a : List ℚ) (h : normSq a ≠ 0) : simKey a a = 1 := by
  have hpos : 0 < normSq a := lt_of_le_of_ne (normSq_nonneg a) (Ne.symm h)
  rw [simKey, keyFun, if_neg (mul_ne_zero h h)]
  have hdot : dot a a = normSq a := rfl
  rw [hdot, abs_of_pos hpos]
  field_simp

theorem dot_eq_zero_of_normSq_zero (a : List ℚ) (h : normSq a = 0) (b : List ℚ) :
    dot a b = 0 := by
  induction a generalizing b with
  | nil => exact dot_nil_left b
  | cons x xs ih =>
      rw [normSq_cons] at h
      have hx : x = 0 ∧ normSq xs = 0 := by
        constructor
        · nlinarith [mul_self_nonneg x, normSq_nonneg xs]
        · nlinarith [mul_self_nonneg x, normSq_nonneg xs]
      cases b with
      | nil => exact dot_nil_right _
      | cons y ys =>
          rw [dot_cons, hx.1, ih hx.2 ys]
          ring

/-! ### Correspondence between `keyFun` and the real-valued cosine quotient -/

theorem signedSq_strictMono : StrictMono (fun t : ℝ => t * |t|) := by
  intro a b hab
  rcases le_or_lt 0 a with ha | ha
  · have hb : 0 < b := lt_of_le_of_lt ha hab
    simp only [abs_of_nonneg ha, abs_of_pos hb]
    nlinarith
  · rcases le_or_lt 0 b with hb | hb
    · have h1 : a * |a| < 0 := by
        rw [abs_of_neg ha]; nlinarith
      have h2 : 0 ≤ b * |b| := by
        rw [abs_of_nonneg hb]; positivity
      simp only
      linarith
    · simp only [abs_of_neg ha, abs_of_neg hb]
      nlinarith

/-- The rational key is the signed square of the real quotient `x / √d`. -/
theorem keyFun_cast (x d : ℚ) (hd : 0 ≤ d) :
    ((keyFun x d : ℚ) : ℝ) =
      ((x : ℝ) / Real.sqrt (d : ℝ)) * |(x : ℝ) / Real.sqrt (d : ℝ)| := by
  by_cases h : d = 0
  · subst h
    simp [keyFun, Real.sqrt_zero]
  · have hd' : (0 : ℝ) < (d : ℝ) := by
      exact_mod_cast lt_of_le_of_ne hd (Ne.symm h)
    have hs : 0 < Real.sqrt (d : ℝ) := Real.sqrt_pos.2 hd'
    rw [keyFun, if_neg h]
    push_cast
    rw [abs_div, abs_of_pos hs, div_mul_div_comm, Real.mul_self_sqrt hd'.le]

/-- Comparison of keys is exactly comparison of the real quotients, so the
signed-square encoding induces the same ranking as the real cosine. -/
theorem keyFun_le_keyFun_iff (x y dx dy : ℚ) (hx : 0 ≤ dx) (hy : 0 ≤ dy) :
    keyFun x dx ≤ keyFun y dy ↔
      (x : ℝ) / Real.sqrt (dx : ℝ) ≤ (y : ℝ) / Real.sqrt (dy : ℝ) := by
  rw [show (keyFun x dx ≤ keyFun y dy) ↔
        ((keyFun x dx : ℚ) : ℝ) ≤ ((keyFun y dy : ℚ) : ℝ) by exact_mod_cast Iff.rfl]
  rw [keyFun_cast x dx hx, keyFun_cast y dy hy]
  exact signedSq_strictMono.le_iff_le

/-- Ranking by `simKey` against a fixed query agrees with ranking by the
real-valued cosine similarity `dot(a,q) / (norm(a)*norm(q))`. -/
theorem simKey_le_simKey_iff (a b q : List ℚ) :
    simKey a q ≤ simKey b q ↔
      (dot a q : ℝ) / Real.sqrt ((normSq a * normSq q : ℚ) : ℝ) ≤
        (dot b q : ℝ) / Real.sqrt ((normSq b * normSq q : ℚ) : ℝ) :=
  keyFun_le_keyFun_iff _ _ _ _
    (mul_nonneg (normSq_nonneg a) (normSq_nonneg q))
    (mul_nonneg (normSq_nonneg b) (normSq_nonneg q))

/-! ## Vector index and search (modelled from the spec) -/

/-- Modelled from the spec: the in-memory vector index, a mapping from chunk
identifier to (chunk text, embedding) in insertion order (§3, §4.3). -/
structure VectorIndex where
  entries : List (String × List ℚ)
deriving DecidableEq

/-- Modelled from the spec: the scored list `[(chunk, score), ...]` computed
by `search` before ranking — each stored entry paired with its similarity
against the query (§4.3). -/
def scores (idx : VectorIndex) (q : List ℚ) : List (String × ℚ) :=
  idx.entries.map (fun e => (e.1, simKey e.2 q))

/-- Modelled from the spec: stable insertion of a scored entry into a list
sorted by non-increasing score — the new entry goes after every earlier
entry with an equal-or-larger score, realising the stable
highest-score-first ranking of `search` (§4.3). -/
def insertDesc (x : String × ℚ) : List (String × ℚ) → List (String × ℚ)
  | [] => [x]
  | y :: ys => if y.2 ≤ x.2 then x :: y :: ys else y :: insertDesc x ys

/-- Modelled from the spec: stable sort by non-increasing score, ties broken
by insertion order (§4.3). -/
def sortDesc (l : List (String × ℚ)) : List (String × ℚ) :=
  l.foldr insertDesc []

theorem sortDesc_nil : sortDesc [] = [] := rfl

theorem sortDesc_cons (x : String × ℚ) (l : List (String × ℚ)) :
    sortDesc (x :: l) = insertDesc x (sortDesc l) := rfl

/-- Modelled from the spec: `search(query, k)` — rank all stored entries by
non-increasing similarity score (stable) and return the first `k`; `k` is
thereby clamped to the index size, and an empty index yields `[]` (§4.3). -/
def search (idx : VectorIndex) (q : List ℚ) (k : ℕ) : List (String × ℚ) :=
  (sortDesc (scores idx q)).take k

theorem insertDesc_perm (x : String × ℚ) (s : List (String × ℚ)) :
    List.Perm (insertDesc x s) (x :: s) := by
  induction s with
  | nil => exact List.Perm.refl _
  | cons y ys ih =>
      rw [insertDesc]
      by_cases h : y.2 ≤ x.2
      · rw [if_pos h]
      · rw [if_neg h]
        exact List.Perm.trans (List.Perm.cons y ih) (List.Perm.swap x y ys)

theorem sortDesc_perm (l : List (String × ℚ)) : List.Perm (sortDesc l) l := by
  induction l with
  | nil => exact List.Perm.refl _
  | cons x t ih =>
      exact List.Perm.trans (insertDesc_perm x (sortDesc t)) (List.Perm.cons x ih)

theorem sortDesc_length (l : List (String × ℚ)) : (sortDesc l).length = l.length :=
  (sortDesc_perm l).length_eq

theorem insertDesc_pairwise (x : String × ℚ) (s : List (String × ℚ))
    (hs : s.Pairwise (fun a b => b.2 ≤ a.2)) :
    (insertDesc x s).Pairwise (fun a b => b.2 ≤ a.2) := by
  induction s with
  | nil => simp [insertDesc]
  | cons y ys ih =>
      rw [List.pairwise_cons] at hs
      rw [insertDesc]
      by_cases h : y.2 ≤ x.2
      · rw [if_pos h]
        refine List.Pairwise.cons ?_ (List.Pairwise.cons hs.1 hs.2)
        intro z hz
        rcases List.mem_cons.mp hz with hz | hz
        · exact hz ▸ h
        · exact le_trans (hs.1 z hz) h
      · rw [if_neg h]
        refine List.Pairwise.cons ?_ (ih hs.2)
        intro z hz
        rcases List.mem_cons.mp ((insertDesc_perm x ys).mem_iff.mp hz) with hz | hz
        · exact hz ▸ le_of_lt (lt_of_not_le h)
        · exact hs.1 z hz

theorem sortDesc_pairwise (l : List (String × ℚ)) :
    (sortDesc l).Pairwise (fun a b => b.2 ≤ a.2) := by
  induction l with
  | nil => exact List.Pairwise.nil
  | cons x t ih => exact insertDesc_pairwise x (sortDesc t) ih

theorem insertDesc_filter (x : String × ℚ) (s : List (String × ℚ)) (v : ℚ) :
    (insertDesc x s).filter (fun p => decide (p.2 = v)) =
      (x :: s).filter (fun p => decide (p.2 = v)) := by
  induction s with
  | nil => rfl
  | cons y ys ih =>
      rw [insertDesc]
      by_cases h : y.2 ≤ x.2
      · rw [if_pos h]
      · rw [if_neg h]
        by_cases hx : x.2 = v
        · have hy : ¬ y.2 = v := by
            intro hy
            exact h (le_of_eq (hy.trans hx.symm))
          simp only [List.filter_cons, hx, hy, decide_True, decide_False,
            if_true, if_false, decide_eq_true_eq] at *
          simp [hy, hx, ih]
        · by_cases hy : y.2 = v
          · simp [List.filter_cons, hx, hy, ih]
          · simp [List.filter_cons, hx, hy, ih]

theorem sortDesc_filter (l : List (String × ℚ)) (v : ℚ) :
    (sortDesc l).filter (fun p => decide (p.2 = v)) =
      l.filter (fun p => decide (p.2 = v)) := by
  induction l with
  | nil => rfl
  | cons x t ih =>
      have h := insertDesc_filter x (sortDesc t) v
      rw [sortDesc_cons, h]
      by_cases hx : x.2 = v
      · simp [List.filter_cons, hx, ih]
      · simp [List.filter_cons, hx, ih]

theorem insertDesc_top (x : String × ℚ) (s : List (String × ℚ))
    (h : ∀ y ∈ s, y.2 ≤ x.2) : insertDesc x s = x :: s := by
  cases s with
  | nil => rfl
  | cons y ys => rw [insertDesc, if_pos (h y (List.mem_cons_self y ys))]

/-- If every element left of `x` scores strictly below `x` and every element
right of `x` scores at most `x`, the stable descending sort puts `x` first. -/
theorem sortDesc_append_max (l₁ : List (String × ℚ)) (x : String × ℚ)
    (l₂ : List (String × ℚ))
    (h₁ : ∀ y ∈ l₁, y.2 < x.2) (h₂ : ∀ y ∈ l₂, y.2 ≤ x.2) :
    ∃ t, sortDesc (l₁ ++ x :: l₂) = x :: t := by
  induction l₁ with
  | nil =>
      refine ⟨sortDesc l₂, ?_⟩
      rw [List.nil_append, sortDesc_cons]
      exact insertDesc_top x _ (fun y hy =>
        h₂ y ((sortDesc_perm l₂).mem_iff.mp hy))
  | cons z l₁ ih =>
      obtain ⟨t, ht⟩ := ih (fun y hy => h₁ y (List.mem_cons_of_mem z hy))
      refine ⟨insertDesc z t, ?_⟩
      rw [List.cons_append, sortDesc_cons, ht]
      have hz : ¬ x.2 ≤ z.2 := not_le.mpr (h₁ z (List.mem_cons_self z l₁))
      rw [insertDesc, if_neg hz]

/-! ## Chunker (modelled from the spec, §4.1) -/

/-- Modelled from the spec: the chunking loop — produce consecutive windows
of `cs` characters, advancing the start offset by `step` each iteration,
until the remaining text is exhausted (§4.1). -/
def splitGo (cs step : ℕ) (hstep : 0 < step) (text : List Char) :
    List (List Char) :=
  if h : text = [] then []
  else text.take cs :: splitGo cs step hstep (text.drop step)
termination_by text.length
decreasing_by
  simp only [List.length_drop]
  have : 0 < text.length := List.length_pos.mpr h
  omega

theorem splitGo_nil (cs step : ℕ) (hstep : 0 < step) :
    splitGo cs step hstep [] = [] := by
  rw [splitGo]
  simp

theorem splitGo_ne_nil (cs step : ℕ) (hstep : 0 < step) (text : List Char)
    (h : text ≠ []) :
    splitGo cs step hstep text =
      text.take cs :: splitGo cs step hstep (text.drop step) := by
  rw [splitGo]
  simp [h]

theorem splitGo_cons (cs step : ℕ) (hstep : 0 < step) (x : Char) (xs : List Char) :
    splitGo cs step hstep (x :: xs) =
      (x :: xs).take cs :: splitGo cs step hstep ((x :: xs).drop step) :=
  splitGo_ne_nil cs step hstep (x :: xs) (by simp)

/-- Modelled from the spec: `split(text, chunk_size, overlap)` — parameter
violation (`chunk_size ≤ overlap`, which in ℕ also covers `chunk_size = 0`)
fails with `InvalidArgument`; otherwise windows of `chunk_size` characters
advance by `chunk_size - overlap` (§4.1). -/
def split (text : List Char) (cs ov : ℕ) : Except String (List (List Char)) :=
  if h : cs ≤ ov then Except.error "InvalidArgument"
  else Except.ok (splitGo cs (cs - ov) (by omega) text)

/-- Every produced window is the `cs`-character slice of `text` at offset
`j * step`, it is nonempty, and it stays inside the text. -/
theorem splitGo_windows (cs step : ℕ) (hstep : 0 < step) (hcs : 0 < cs) :
    ∀ (n : ℕ) (text : List Char), text.length ≤ n →
      ∀ (j : ℕ) (c : List Char), (splitGo cs step hstep text)[j]? = some c →
        c = (text.drop (j * step)).take cs ∧ c ≠ [] ∧
          j * step + c.length ≤ text.length := by
  intro n
  induction n with
  | zero =>
      intro text hlen j c hc
      have : text = [] := List.length_eq_zero.mp (Nat.le_zero.mp hlen)
      rw [this, splitGo_nil] at hc
      simp at hc
  | succ n ih =>
      intro text hlen j c hc
      by_cases h : text = []
      · rw [h, splitGo_nil] at hc
        simp at hc
      · rw [splitGo_ne_nil cs step hstep text h] at hc
        have hpos : 0 < text.length := List.length_pos.mpr h
        cases j with
        | zero =>
            simp only [List.getElem?_cons_zero, Option.some.injEq] at hc
            subst hc
            refine ⟨by simp, ?_, ?_⟩
            · have : (text.take cs).length = min cs text.length := by
                simp [List.length_take]
              intro hnil
              rw [hnil] at this
              simp at this
              omega
            · simp only [Nat.zero_mul, Nat.zero_add, List.length_take]
              omega
        | succ j =>
            simp only [List.getElem?_cons_succ] at hc
            have hdrop : (text.drop step).length ≤ n := by
              simp only [List.length_drop]
              omega
            obtain ⟨hc1, hc2, hc3⟩ := ih (text.drop step) hdrop j c hc
            refine ⟨?_, hc2, ?_⟩
            · rw [hc1, List.drop_drop]
              congr 1
              ring_nf
            · have hld : (text.drop step).length = text.length - step := by simp
              have hclen : 0 < c.length := List.length_pos.mpr hc2
              have hmul : (j + 1) * step = j * step + step := by ring
              omega

/-- Every character offset of the text is covered by some produced window. -/
theorem splitGo_cover (cs step : ℕ) (hstep : 0 < step) (hcs : step ≤ cs) :
    ∀ (n : ℕ) (text : List Char), text.length ≤ n →
      ∀ p, p < text.length →
        ∃ (j : ℕ) (c : List Char), (splitGo cs step hstep text)[j]? = some c ∧
          j * step ≤ p ∧ p < j * step + c.length := by
  intro n
  induction n with
  | zero =>
      intro text hlen p hp
      omega
  | succ n ih =>
      intro text hlen p hp
      have h : text ≠ [] := by
        intro h
        rw [h] at hp
        simp at hp
      rw [splitGo_ne_nil cs step hstep text h]
      by_cases hps : p < step
      · refine ⟨0, text.take cs, by simp, by simp, ?_⟩
        simp only [Nat.zero_mul, Nat.zero_add, List.length_take]
        omega
      · have hdrop : (text.drop step).length ≤ n := by
          simp only [List.length_drop]
          omega
        have hp' : p - step < (text.drop step).length := by
          simp only [List.length_drop]
          omega
        obtain ⟨j, c, hc, hle, hlt⟩ := ih (text.drop step) hdrop (p - step) hp'
        refine ⟨j + 1, c, by simpa using hc, ?_, ?_⟩
        · have : (j + 1) * step = j * step + step := by ring
          omega
        · have : (j + 1) * step = j * step + step := by ring
          omega

/-! ## Session store, embedder client and upload endpoint
(modelled from the spec, §§4.2, 4.4, 6, 7) -/

/-- A JSON-like field value of a response object: a string or a number. -/
inductive JVal where
  | s (v : String)
  | n (v : ℕ)
deriving DecidableEq

/-- Field lookup in a JSON-like response object. -/
def lookupJ (r : List (String × JVal)) (k : String) : Option JVal :=
  (r.find? (fun p => p.1 == k)).map (fun p => p.2)

/-- Modelled from the spec: a session record binding an uploaded document's
identifier, filename, chunk count and owned vector index (§3). -/
structure Session where
  session_id : String
  filename : String
  chunk_count : ℕ
  index : VectorIndex
deriving DecidableEq

/-- Lower-case a filename and test for the `.pdf` suffix, as the sources do
with `file.name.toLowerCase().endsWith('.pdf')`. -/
def pdfName (s : String) : Bool :=
  List.isSuffixOf ".pdf".toList (s.toList.map Char.toLower)

/-- Modelled from the spec: partition the chunk list into sub-batches of at
most `B` chunks to respect provider limits (§4.2); a bound of 0 is treated
as unbatched (a single sub-batch). -/
def batches (B : ℕ) (l : List (List Char)) : List (List (List Char)) :=
  if l = [] then []
  else if h : B = 0 then [l]
  else l.take B :: batches B (l.drop B)
termination_by l.length
decreasing_by
  rename_i hl
  simp only [List.length_drop]
  have : 0 < l.length := List.length_pos.mpr hl
  omega

/-- Modelled from the spec: `embed_batch` — embed each sub-batch through the
external embedder `embedOne`, in order; a sub-batch failure fails the whole
call rather than silently dropping chunks (§4.2). -/
def embedBatches (embedOne : List (List Char) → Except String (List (List ℚ))) :
    List (List (List Char)) → Except String (List (List ℚ))
  | [] => Except.ok []
  | b :: bs =>
      match embedOne b with
      | Except.error e => Except.error e
      | Except.ok r =>
          match embedBatches embedOne bs with
          | Except.error e => Except.error e
          | Except.ok rest => Except.ok (r ++ rest)

/-- Modelled from the spec: all embeddings of an index share one dimension
(§3: an index's invariant). -/
def sameDims : List (List ℚ) → Bool
  | [] => true
  | e :: rest => rest.all (fun x => x.length == e.length)

/-- Modelled from the spec: `insert` — pair up chunks with their embeddings
to populate a fresh index; a count mismatch or inconsistent dimensions fail
with `DimensionMismatch` (§4.3). -/
def mkIndex (chunks : List (List Char)) (embs : List (List ℚ)) :
    Except String VectorIndex :=
  if chunks.length = embs.length ∧ sameDims embs = true then
    Except.ok ⟨(chunks.map (fun c => String.mk c)).zip embs⟩
  else Except.error "DimensionMismatch"

/-- Modelled from the spec: the successful upload response object (§6:
`{ session_id, filename, chunk_count }`) with the field keys actually read
by the frontend in the delivered source (`result.session_id`,
`result.filename`, `result.chunks_count` — note the plural
`chunks_count`). -/
def uploadResponse (sid fname : String) (n : ℕ) : List (String × JVal) :=
  [("session_id", JVal.s sid), ("filename", JVal.s fname),
   ("chunks_count", JVal.n n)]

/-- Observable backend work performed during an upload. -/
inductive BackendEv where
  | chunked (n : ℕ)
  | embedded (n : ℕ)
  | indexed (n : ℕ)
deriving DecidableEq

/-- Modelled from the spec: the upload endpoint — reject non-PDF filenames
with `UnsupportedFormat` before any chunking or embedding; otherwise chunk
the extracted text, embed every chunk batch-wise, build the index and only
then create the session; on any failure the session store is left unchanged
(§§4.2, 6, 7).  Returns the new store, the log of work performed, and the
response or error. -/
def uploadDoc (store : List Session) (sid fname : String) (text : List Char)
    (cs ov B : ℕ)
    (embedOne : List (List Char) → Except String (List (List ℚ))) :
    List Session × List BackendEv × Except String (List (String × JVal)) :=
  if pdfName fname then
    match split text cs ov with
    | Except.error e => (store, [], Except.error e)
    | Except.ok chunks =>
        match embedBatches embedOne (batches B chunks) with
        | Except.error e => (store, [BackendEv.chunked chunks.length], Except.error e)
        | Except.ok embs =>
            match mkIndex chunks embs with
            | Except.error e =>
                (store, [BackendEv.chunked chunks.length, BackendEv.embedded embs.length],
                 Except.error e)
            | Except.ok idx =>
                (store ++ [⟨sid, fname, chunks.length, idx⟩],
                 [BackendEv.chunked chunks.length, BackendEv.embedded embs.length,
                  BackendEv.indexed idx.entries.length],
                 Except.ok (uploadResponse sid fname chunks.length))
  else (store, [], Except.error "UnsupportedFormat")

theorem batches_nil (B : ℕ) : batches B [] = [] := by
  rw [batches]
  simp

theorem batches_cons (B : ℕ) (hB : B ≠ 0) (l : List (List Char)) (hl : l ≠ []) :
    batches B l = l.take B :: batches B (l.drop B) := by
  rw [batches, if_neg hl, dif_neg hB]

theorem batches_flatten (B : ℕ) (l : List (List Char)) :
    (batches B l).flatten = l := by
  by_cases hl : l = []
  · rw [hl, batches]
    simp
  · rw [batches, if_neg hl]
    by_cases hB : B = 0
    · simp [hB]
    · rw [dif_neg hB, List.flatten_cons, batches_flatten B (l.drop B),
        List.take_append_drop]
termination_by l.length
decreasing_by
  simp only [List.length_drop]
  have : 0 < l.length := List.length_pos.mpr hl
  omega

theorem mkIndex_length (chunks : List (List Char)) (embs : List (List ℚ))
    (idx : VectorIndex) (h : mkIndex chunks embs = Except.ok idx) :
    idx.entries.length = chunks.length := by
  rw [mkIndex] at h
  by_cases hc : chunks.length = embs.length ∧ sameDims embs = true
  · rw [if_pos hc] at h
    cases h
    simp [List.length_zip, hc.1]
  · rw [if_neg hc] at h
    cases h

/-! ## Retrieval chat endpoint (modelled from the spec, §§4.5, 6) -/

/-- Modelled from the spec: the retrieval-mode chat endpoint — look up the
session (`NotFound` on a miss), search its index for the top `k` chunks for
the embedded question, and answer with the generated text plus the number of
chunks used: `{ answer, relevant_chunks_used }` (§6). -/
def ragChat (store : List Session) (sid : String) (qv : List ℚ) (k : ℕ)
    (generate : List String → String) :
    Except String (List (String × JVal)) :=
  match store.find? (fun t => t.session_id == sid) with
  | none => Except.error "NotFound"
  | some s =>
      let results := search s.index qv k
      Except.ok [("answer", JVal.s (generate (results.map Prod.fst))),
                 ("relevant_chunks_used", JVal.n results.length)]

/-! ## Frontend: combined chat/upload page (from the delivered source,
`src/unnamed/part_001`) -/

inductive Role where
  | user
  | assistant
deriving DecidableEq

structure Msg where
  role : Role
  content : String
deriving DecidableEq

/-- The frontend `Session` interface of `src/unnamed/part_001` (lines
10–14): note the field is `chunks_count`. -/
structure RagSession where
  session_id : String
  filename : String
  chunks_count : ℕ
deriving DecidableEq

inductive ChatMode where
  | general
  | rag
deriving DecidableEq

/-- React state of the combined page touched by `handleFileUpload`. -/
structure HomeState where
  messages : List Msg
  currentSession : Option RagSession
  sessions : List RagSession
  uploading : Bool
  chatMode : ChatMode
deriving DecidableEq

/-- Browser-visible effects of a handler run. -/
inductive FxEvent where
  | alert (msg : String)
  | fetchUpload (filename : String)
  | fetchSessions
deriving DecidableEq

def isFetch : FxEvent → Bool
  | FxEvent.alert _ => false
  | FxEvent.fetchUpload _ => true
  | FxEvent.fetchSessions => true

def getS : Option JVal → String
  | some (JVal.s v) => v
  | _ => ""

def getN : Option JVal → ℕ
  | some (JVal.n v) => v
  | _ => 0

/-- The success message texted into the chat by `part_001` (line 98). -/
def uploadSuccessText (fname : String) (n : ℕ) : String :=
  "PDF \"" ++ fname ++ "\" uploaded successfully! I've processed " ++
    toString n ++ " text chunks. You can now ask me questions about this document."

/-- `handleFileUpload` of `src/unnamed/part_001` (lines 42–113).  The chosen
file, the parsed JSON of a successful `/api/rag/upload` response (`none`
models a failed fetch), and the session list reloaded afterwards are inputs;
the result is the new page state plus the effect trace.  A file whose
lower-cased name does not end in `.pdf` is rejected with
`alert('Please select a PDF file')` before any request is made. -/
def handleFileUpload1 (st : HomeState) (file : Option String)
    (uploadResult : Option (List (String × JVal))) (refreshed : List RagSession) :
    HomeState × List FxEvent :=
  match file with
  | none => (st, [])
  | some name =>
      if pdfName name then
        match uploadResult with
        | some resp =>
            let sess : RagSession :=
              ⟨getS (lookupJ resp "session_id"), getS (lookupJ resp "filename"),
               getN (lookupJ resp "chunks_count")⟩
            ({ st with
                currentSession := some sess,
                chatMode := ChatMode.rag,
                messages := [⟨Role.assistant,
                  uploadSuccessText sess.filename sess.chunks_count⟩],
                sessions := refreshed,
                uploading := false },
             [FxEvent.fetchUpload name, FxEvent.fetchSessions])
        | none =>
            ({ st with
                messages := [⟨Role.assistant,
                  "Error uploading PDF: Failed to upload PDF"⟩],
                uploading := false },
             [FxEvent.fetchUpload name])
      else (st, [FxEvent.alert "Please select a PDF file"])

/-- The field keys the combined page reads off a successful upload response
(`result.session_id`, `result.filename`, `result.chunks_count`,
`src/unnamed/part_001` lines 83–87). -/
def uploadFieldsRead : List String := ["session_id", "filename", "chunks_count"]

/-- The JSON body the combined page posts to `/api/rag/chat`
(`src/unnamed/part_001` lines 134–138): note the third key is `model`. -/
def ragChatBody (sid input : String) : List (String × String) :=
  [("session_id", sid), ("user_message", input), ("model", "gpt-4.1-mini")]

/-! ## Frontend: PDF chat page (from the delivered source,
`src/unnamed/part_002`) -/

/-- React state of the PDF chat page touched by `handleFileUpload`
(timestamps are dropped from messages). -/
structure PdfChatState where
  messages : List Msg
  uploadedPDFs : List (String × String)
  selectedPDF : String
  isUploading : Bool
deriving DecidableEq

/-- `handleFileUpload` of `src/unnamed/part_002` (lines 25–76); the parsed
`{ filename, status }` of a successful `/api/upload_pdf` response is an
input (`none` models a failed fetch).  A file whose lower-cased name does
not end in `.pdf` is rejected with `alert('Please select a PDF file.')`
before any request is made. -/
def handleFileUpload2 (st : PdfChatState) (file : Option String)
    (uploadResult : Option (String × String)) :
    PdfChatState × List FxEvent :=
  match file with
  | none => (st, [])
  | some name =>
      if pdfName name then
        match uploadResult with
        | some r =>
            ({ st with
                uploadedPDFs := st.uploadedPDFs ++ [r],
                selectedPDF := r.1,
                messages := st.messages ++ [⟨Role.assistant,
                  "✅ PDF \"" ++ r.1 ++
                    "\" uploaded and indexed successfully! You can now ask questions about this document."⟩],
                isUploading := false },
             [FxEvent.fetchUpload name])
        | none =>
            ({ st with
                messages := st.messages ++ [⟨Role.assistant,
                  "❌ Error uploading PDF: Failed to upload PDF"⟩],
                isUploading := false },
             [FxEvent.fetchUpload name])
      else (st, [FxEvent.alert "Please select a PDF file."])

/-! ## Frontend: general chat page streaming reader (from the delivered
source, `src/frontend/src/app/page.tsx`, lines 41–62) -/

/-- A chat message of the streaming page; content is kept as a character
list so that fragment concatenation is explicit. -/
structure StreamMsg where
  role : Role
  content : List Char
deriving DecidableEq

/-- `newMessages[newMessages.length - 1].content = accumulatedResponse`:
replace the content of the last message. -/
def updateLast (c : List Char) : List StreamMsg → List StreamMsg
  | [] => []
  | [m] => [⟨m.role, c⟩]
  | m :: m' :: rest => m :: updateLast c (m' :: rest)

/-- The `while (true)` read loop: each fragment decoded from the stream is
appended to `accumulatedResponse`, and the last message is updated to the
accumulated text. -/
def streamLoop (msgs : List StreamMsg) (acc : List Char) :
    List (List Char) → List StreamMsg
  | [] => msgs
  | f :: fs => streamLoop (updateLast (acc ++ f) msgs) (acc ++ f) fs

/-- The streaming branch of `handleSubmit`: push an empty assistant message,
then run the read loop over the fragments delivered by the response body. -/
def handleStream (msgs : List StreamMsg) (frags : List (List Char)) :
    List StreamMsg :=
  streamLoop (msgs ++ [⟨Role.assistant, []⟩]) [] frags

/-! ## Claim theorems -/

/-- Claim C1: for every vector index, query embedding, and `k`, `search`
returns a sequence sorted by non-increasing similarity score; its length is
`min k (index size)` (so `k ≥ size` gives exactly `size` results, i.e. `k`
is clamped); an empty index yields the empty sequence rather than an error;
and the ranking is stable — for any score value `s`, the entries scoring
`s` appear in the ranked list exactly in insertion order (ties broken by
insertion order).  Scores are the order-faithful rational encoding of the
cosine; `simKey_le_simKey_iff` shows the ordering coincides with the
real-valued cosine ordering. -/
theorem c1_search_spec (idx : VectorIndex) (q : List ℚ) (k : ℕ) (s : ℚ) :
    (search idx q k).Pairwise (fun a b => b.2 ≤ a.2) ∧
    (search idx q k).length = min k idx.entries.length ∧
    search ⟨[]⟩ q k = [] ∧
    (sortDesc (scores idx q)).filter (fun p => decide (p.2 = s)) =
      (scores idx q).filter (fun p => decide (p.2 = s)) := by
  refine ⟨?_, ?_, ?_, sortDesc_filter (scores idx q) s⟩
  · exact (sortDesc_pairwise (scores idx q)).sublist (List.take_sublist k _)
  · rw [search, List.length_take, sortDesc_length, scores, List.length_map]
  · simp [search, scores, sortDesc]

/-- Claim C4: a stored embedding of norm 0 (the zero vector) scores exactly
0 against any query — the `keyFun` branch on a zero denominator realises the
spec's "score 0 instead of dividing by zero" — and symmetrically for a
zero-norm query; moreover the cosine numerator `dot v q` is itself 0, so
even the real-valued cosine expression is `0 / 0 = 0` rather than a genuine
division by zero. -/
theorem c4_zero_norm (v q : List ℚ) (h : normSq v = 0) :
    simKey v q = 0 ∧ dot v q = 0 ∧ simKey q v = 0 := by
  refine ⟨?_, dot_eq_zero_of_normSq_zero v h q, ?_⟩
  · rw [simKey, h, keyFun]
    simp
  · rw [simKey, h, keyFun]
    simp

/-- Witness for C4 at the concrete zero vector `[0, 0]` and query `[3, 4]`. -/
theorem c4_zero_norm_witness :
    normSq [(0 : ℚ), 0] = 0 ∧
      (simKey [(0 : ℚ), 0] [3, 4] = 0 ∧ dot [(0 : ℚ), 0] [3, 4] = 0 ∧
        simKey [3, 4] [(0 : ℚ), 0] = 0) :=
  ⟨by norm_num [normSq, dot], c4_zero_norm [0, 0] [3, 4] (by norm_num [normSq, dot])⟩

theorem updateLast_append (msgs : List StreamMsg) (m : StreamMsg) (c : List Char) :
    updateLast c (msgs ++ [m]) = msgs ++ [⟨m.role, c⟩] := by
  induction msgs with
  | nil => rfl
  | cons a as ih =>
      cases as with
      | nil => rfl
      | cons b bs =>
          rw [List.cons_append, List.cons_append, updateLast,
            ← List.cons_append, ih]
          simp

theorem streamLoop_run (frags : List (List Char)) :
    ∀ (msgs : List StreamMsg) (r : Role) (acc : List Char),
      streamLoop (msgs ++ [⟨r, acc⟩]) acc frags =
        msgs ++ [⟨r, acc ++ frags.flatten⟩] := by
  induction frags with
  | nil =>
      intro msgs r acc
      simp [streamLoop]
  | cons f fs ih =>
      intro msgs r acc
      rw [streamLoop, updateLast_append, ih]
      simp [List.append_assoc]

/-- Claim C9: the general-chat page's streaming handler — after the read
loop completes, the assistant message it appended holds exactly the in-order
concatenation of all fragments delivered by the response body stream, with
nothing dropped, duplicated or reordered, and the earlier messages are
untouched. -/
theorem c9_stream_concat (msgs : List StreamMsg) (frags : List (List Char)) :
    handleStream msgs frags = msgs ++ [⟨Role.assistant, frags.flatten⟩] := by
  rw [handleStream, streamLoop_run frags msgs Role.assistant []]
  simp

/-- Counterexample to claim C2 as stated: insert the two pairs
`("a", [1])` and `("b", [1])` and query with `[1]`, the stored embedding of
`"b"`, with `k = 1`.  Because ties are broken by insertion order, the chunk
ranked first is `"a"`, not the chunk `"b"` whose embedding was queried. -/
theorem c2_counterexample :
    (search ⟨[("a", [(1 : ℚ)]), ("b", [1])]⟩ [1] 1).head? = some ("a", 1) ∧
      "a" ≠ "b" := by
  constructor
  · norm_num [search, scores, sortDesc, insertDesc, simKey, keyFun, dot, normSq]
  · decide

/-- Claim C2, amended: searching with the stored embedding of pair `i`
(with `k ≥ 1`) returns that pair's chunk ranked first with score 1,
provided the embedding is non-zero and every earlier-inserted pair's
embedding has similarity strictly below 1 with it (earlier exact ties —
e.g. a duplicated or positively-parallel embedding — win by insertion
order, which is what the counterexample exploits).  Ranking uses the
order-faithful encoding of `cosine = dot(a,b) / (norm(a)*norm(b))`; see
`simKey_le_simKey_iff`. -/
theorem c2_roundtrip (entries : List (String × List ℚ)) (i : ℕ)
    (hi : i < entries.length) (k : ℕ) (hk : 0 < k)
    (hnz : normSq entries[i].2 ≠ 0)
    (hear : ∀ p ∈ entries.take i, simKey p.2 entries[i].2 < 1) :
    (search ⟨entries⟩ entries[i].2 k).head? = some (entries[i].1, 1) := by
  have hdecomp : entries = entries.take i ++ entries[i] :: entries.drop (i + 1) := by
    conv_lhs => rw [← List.take_append_drop i entries]
    rw [List.drop_eq_getElem_cons hi]
  set e := entries[i] with he
  set l₁ := entries.take i with hl₁
  set l₂ := entries.drop (i + 1) with hl₂
  have hmap : scores ⟨entries⟩ e.2 =
      l₁.map (fun p => (p.1, simKey p.2 e.2)) ++
        (e.1, (1 : ℚ)) :: l₂.map (fun p => (p.1, simKey p.2 e.2)) :=
    calc scores ⟨entries⟩ e.2 = entries.map (fun p => (p.1, simKey p.2 e.2)) := rfl
    _ = (l₁ ++ e :: l₂).map (fun p => (p.1, simKey p.2 e.2)) := by rw [← hdecomp]
    _ = l₁.map (fun p => (p.1, simKey p.2 e.2)) ++
          (e.1, simKey e.2 e.2) :: l₂.map (fun p => (p.1, simKey p.2 e.2)) := by
        rw [List.map_append, List.map_cons]
    _ = l₁.map (fun p => (p.1, simKey p.2 e.2)) ++
          (e.1, (1 : ℚ)) :: l₂.map (fun p => (p.1, simKey p.2 e.2)) := by
        rw [simKey_self _ hnz]
  have h₁ : ∀ y ∈ l₁.map (fun p => (p.1, simKey p.2 e.2)),
      y.2 < (e.1, (1 : ℚ)).2 := by
    intro y hy
    obtain ⟨p, hp, rfl⟩ := List.mem_map.mp hy
    exact hear p hp
  have h₂ : ∀ y ∈ l₂.map (fun p => (p.1, simKey p.2 e.2)),
      y.2 ≤ (e.1, (1 : ℚ)).2 := by
    intro y hy
    obtain ⟨p, hp, rfl⟩ := List.mem_map.mp hy
    exact simKey_le_one p.2 e.2
  obtain ⟨t, ht⟩ := sortDesc_append_max _ (e.1, (1 : ℚ)) _ h₁ h₂
  rw [search, hmap, ht]
  cases k with
  | zero => omega
  | succ k' => rfl

/-- Witness for the amended C2: two pairs with orthogonal embeddings;
querying with the second pair's embedding ranks chunk `"b"` first. -/
theorem c2_roundtrip_witness :
    normSq [(0 : ℚ), 1] ≠ 0 ∧
    (∀ p ∈ [("a", [(1 : ℚ), 0])], simKey p.2 [(0 : ℚ), 1] < 1) ∧
    (search ⟨[("a", [(1 : ℚ), 0]), ("b", [0, 1])]⟩ [0, 1] 1).head? =
      some ("b", 1) := by
  refine ⟨?_, ?_, ?_⟩
  · norm_num [normSq, dot]
  · intro p hp
    simp only [List.mem_singleton] at hp
    subst hp
    norm_num [simKey, keyFun, dot, normSq]
  · exact c2_roundtrip [("a", [(1 : ℚ), 0]), ("b", [0, 1])] 1 (by norm_num) 1
      (by norm_num) (by norm_num [normSq, dot])
      (by
        intro p hp
        simp only [List.take, List.mem_singleton] at hp
        subst hp
        norm_num [simKey, keyFun, dot, normSq])

/-- Claim C3: for `chunk_size > 0` and `overlap < chunk_size`, `split`
succeeds; every produced window is the `chunk_size`-character slice of the
text at start offset `j * (chunk_size - overlap)` (so start offsets advance
by `chunk_size - overlap`), windows are nonempty and stay inside the text
(the final one may be shorter than `chunk_size`), every character offset of
the input is covered by some window (no gaps), and empty input yields the
empty sequence rather than an error. -/
theorem c3_split_spec (text : List Char) (cs ov : ℕ) (hcs : 0 < cs)
    (hov : ov < cs) :
    ∃ chunks, split text cs ov = Except.ok chunks ∧
      (∀ (j : ℕ) (c : List Char), chunks[j]? = some c →
        c = (text.drop (j * (cs - ov))).take cs ∧ c ≠ [] ∧
          j * (cs - ov) + c.length ≤ text.length) ∧
      (∀ p, p < text.length → ∃ (j : ℕ) (c : List Char), chunks[j]? = some c ∧
        j * (cs - ov) ≤ p ∧ p < j * (cs - ov) + c.length) ∧
      (text = [] → chunks = []) := by
  have hle : ¬ cs ≤ ov := by omega
  have hstep : 0 < cs - ov := by omega
  refine ⟨splitGo cs (cs - ov) hstep text, ?_, ?_, ?_, ?_⟩
  · rw [split, dif_neg hle]
  · intro j c hc
    exact splitGo_windows cs (cs - ov) hstep hcs text.length text le_rfl j c hc
  · intro p hp
    exact splitGo_cover cs (cs - ov) hstep (by omega) text.length text le_rfl p hp
  · intro h
    rw [h, splitGo_nil]

/-- Witness for C3 on the text `"abcdef"` with `chunk_size = 3`,
`overlap = 1`. -/
theorem c3_split_spec_witness :
    0 < 3 ∧ 1 < 3 ∧
    (∃ chunks, split ['a', 'b', 'c', 'd', 'e', 'f'] 3 1 = Except.ok chunks ∧
      (∀ (j : ℕ) (c : List Char), chunks[j]? = some c →
        c = ((['a', 'b', 'c', 'd', 'e', 'f'] : List Char).drop (j * (3 - 1))).take 3 ∧
          c ≠ [] ∧
          j * (3 - 1) + c.length ≤ (['a', 'b', 'c', 'd', 'e', 'f'] : List Char).length) ∧
      (∀ p, p < (['a', 'b', 'c', 'd', 'e', 'f'] : List Char).length →
        ∃ (j : ℕ) (c : List Char), chunks[j]? = some c ∧
          j * (3 - 1) ≤ p ∧ p < j * (3 - 1) + c.length) ∧
      ((['a', 'b', 'c', 'd', 'e', 'f'] : List Char) = [] → chunks = [])) :=
  ⟨by decide, by decide, c3_split_spec ['a', 'b', 'c', 'd', 'e', 'f'] 3 1
    (by decide) (by decide)⟩

/-- Claim C5: upload is atomic with respect to the session store — either
the whole pipeline (chunking, batch embedding of every chunk, index
construction) succeeds and exactly one session is appended whose
`chunk_count` and index size both equal the number of chunks of the
document, or the call returns an error and the store is unchanged; a
partially embedded document is never stored. -/
theorem c5_upload_atomic (store : List Session) (sid fname : String)
    (text : List Char) (cs ov B : ℕ)
    (embedOne : List (List Char) → Except String (List (List ℚ))) :
    (∃ e, (uploadDoc store sid fname text cs ov B embedOne).2.2 = Except.error e ∧
      (uploadDoc store sid fname text cs ov B embedOne).1 = store) ∨
    (∃ s chunks, split text cs ov = Except.ok chunks ∧
      (uploadDoc store sid fname text cs ov B embedOne).1 = store ++ [s] ∧
      s.chunk_count = chunks.length ∧
      s.index.entries.length = chunks.length ∧
      (uploadDoc store sid fname text cs ov B embedOne).2.2 =
        Except.ok (uploadResponse sid fname chunks.length)) := by
  by_cases hp : pdfName fname = true
  · cases h1 : split text cs ov with
    | error e =>
        left
        exact ⟨e, by simp [uploadDoc, hp, h1], by simp [uploadDoc, hp, h1]⟩
    | ok chunks =>
        cases h2 : embedBatches embedOne (batches B chunks) with
        | error e =>
            left
            exact ⟨e, by simp [uploadDoc, hp, h1, h2], by simp [uploadDoc, hp, h1, h2]⟩
        | ok embs =>
            cases h3 : mkIndex chunks embs with
            | error e =>
                left
                exact ⟨e, by simp [uploadDoc, hp, h1, h2, h3],
                  by simp [uploadDoc, hp, h1, h2, h3]⟩
            | ok idx =>
                right
                refine ⟨⟨sid, fname, chunks.length, idx⟩, chunks, ?_,
                  by simp [uploadDoc, hp, h1, h2, h3], rfl,
                  mkIndex_length chunks embs idx h3,
                  by simp [uploadDoc, hp, h1, h2, h3]⟩
                exact h1 ▸ rfl
  · left
    exact ⟨"UnsupportedFormat", by simp [uploadDoc, hp], by simp [uploadDoc, hp]⟩

/-- Claim C6: an upload whose filename does not indicate a PDF is rejected
before any chunking or embedding work — the frontend handler returns with
only the `alert` and issues no request, and the (spec-modelled) backend
endpoint returns `UnsupportedFormat` with an empty work log and an
unchanged store. -/
theorem c6_nonpdf_rejected (st : HomeState)
    (uploadResult : Option (List (String × JVal))) (refreshed : List RagSession)
    (store : List Session) (sid : String) (text : List Char) (cs ov B : ℕ)
    (embedOne : List (List Char) → Except String (List (List ℚ)))
    (name : String) (hname : pdfName name = false) :
    handleFileUpload1 st (some name) uploadResult refreshed =
      (st, [FxEvent.alert "Please select a PDF file"]) ∧
    uploadDoc store sid name text cs ov B embedOne =
      (store, [], Except.error "UnsupportedFormat") := by
  constructor
  · simp [handleFileUpload1, hname]
  · simp [uploadDoc, hname]

/-- Witness for C6 at the concrete non-PDF filename `"notes.txt"`. -/
theorem c6_nonpdf_rejected_witness :
    pdfName "notes.txt" = false ∧
    (handleFileUpload1 ⟨[], none, [], false, ChatMode.general⟩ (some "notes.txt")
        none [] =
      (⟨[], none, [], false, ChatMode.general⟩,
       [FxEvent.alert "Please select a PDF file"]) ∧
     uploadDoc [] "s1" "notes.txt" ['h', 'i'] 2 1 4
        (fun b => Except.ok (b.map (fun _ => [1]))) =
      ([], [], Except.error "UnsupportedFormat")) :=
  ⟨by decide,
   c6_nonpdf_rejected ⟨[], none, [], false, ChatMode.general⟩ none [] [] "s1"
     ['h', 'i'] 2 1 4 (fun b => Except.ok (b.map (fun _ => [1]))) "notes.txt"
     (by decide)⟩

/-- Counterexample to claim C7 as stated: a concrete successful upload whose
response object has no field named `chunk_count` — the count field is keyed
`chunks_count` (as the frontend `Session` interface and its reads in the
delivered source require), so the response fields are not
`{session_id, filename, chunk_count}`. -/
theorem c7_counterexample :
    (uploadDoc [] "s1" "a.pdf" ['h', 'i'] 2 1 4
        (fun b => Except.ok (b.map (fun _ => [1])))).2.2 =
      Except.ok [("session_id", JVal.s "s1"), ("filename", JVal.s "a.pdf"),
        ("chunks_count", JVal.n 2)] ∧
    lookupJ [("session_id", JVal.s "s1"), ("filename", JVal.s "a.pdf"),
        ("chunks_count", JVal.n 2)] "chunk_count" = none ∧
    ¬ ("chunk_count" ∈ [("session_id", JVal.s "s1"), ("filename", JVal.s "a.pdf"),
        ("chunks_count", JVal.n 2)].map Prod.fst) := by
  have hp : pdfName "a.pdf" = true := by decide
  refine ⟨?_, rfl, by decide⟩
  simp [uploadDoc, hp, split, splitGo_cons, splitGo_nil, batches_cons, batches_nil,
    embedBatches, mkIndex, sameDims, uploadResponse]

/-- Claim C7, amended: for every successful upload, the response object
contains exactly the fields `session_id`, `filename` and `chunks_count`
(the spec's `chunk_count` is actually keyed `chunks_count`), these being
precisely the fields the frontend reads, and `chunks_count` carries the
number of chunks produced for the document. -/
theorem c7_response_fields (store : List Session) (sid fname : String)
    (text : List Char) (cs ov B : ℕ)
    (embedOne : List (List Char) → Except String (List (List ℚ)))
    (resp : List (String × JVal))
    (h : (uploadDoc store sid fname text cs ov B embedOne).2.2 = Except.ok resp) :
    resp.map Prod.fst = uploadFieldsRead ∧
    resp.map Prod.fst = ["session_id", "filename", "chunks_count"] ∧
    ∃ chunks, split text cs ov = Except.ok chunks ∧
      lookupJ resp "session_id" = some (JVal.s sid) ∧
      lookupJ resp "filename" = some (JVal.s fname) ∧
      lookupJ resp "chunks_count" = some (JVal.n chunks.length) := by
  by_cases hp : pdfName fname = true
  · cases h1 : split text cs ov with
    | error e => simp [uploadDoc, hp, h1] at h
    | ok chunks =>
        cases h2 : embedBatches embedOne (batches B chunks) with
        | error e => simp [uploadDoc, hp, h1, h2] at h
        | ok embs =>
            cases h3 : mkIndex chunks embs with
            | error e => simp [uploadDoc, hp, h1, h2, h3] at h
            | ok idx =>
                simp only [uploadDoc, hp, if_true, h1, h2, h3,
                  Except.ok.injEq] at h
                subst h
                exact ⟨rfl, rfl, chunks, rfl, rfl, rfl, rfl⟩
  · simp [uploadDoc, hp] at h

/-- Witness for the amended C7 on a concrete successful upload. -/
theorem c7_response_fields_witness :
    (uploadDoc [] "s1" "a.pdf" ['h', 'i'] 2 1 4
        (fun b => Except.ok (b.map (fun _ => [1])))).2.2 =
      Except.ok [("session_id", JVal.s "s1"), ("filename", JVal.s "a.pdf"),
        ("chunks_count", JVal.n 2)] ∧
    ([("session_id", JVal.s "s1"), ("filename", JVal.s "a.pdf"),
        ("chunks_count", JVal.n 2)].map Prod.fst = uploadFieldsRead ∧
     [("session_id", JVal.s "s1"), ("filename", JVal.s "a.pdf"),
        ("chunks_count", JVal.n 2)].map Prod.fst =
       ["session_id", "filename", "chunks_count"] ∧
     ∃ chunks, split ['h', 'i'] 2 1 = Except.ok chunks ∧
       lookupJ [("session_id", JVal.s "s1"), ("filename", JVal.s "a.pdf"),
          ("chunks_count", JVal.n 2)] "session_id" = some (JVal.s "s1") ∧
       lookupJ [("session_id", JVal.s "s1"), ("filename", JVal.s "a.pdf"),
          ("chunks_count", JVal.n 2)] "filename" = some (JVal.s "a.pdf") ∧
       lookupJ [("session_id", JVal.s "s1"), ("filename", JVal.s "a.pdf"),
          ("chunks_count", JVal.n 2)] "chunks_count" =
         some (JVal.n chunks.length)) := by
  have h : (uploadDoc [] "s1" "a.pdf" ['h', 'i'] 2 1 4
      (fun b => Except.ok (b.map (fun _ => [1])))).2.2 =
      Except.ok [("session_id", JVal.s "s1"), ("filename", JVal.s "a.pdf"),
        ("chunks_count", JVal.n 2)] := by
    have hp : pdfName "a.pdf" = true := by decide
    simp [uploadDoc, hp, split, splitGo_cons, splitGo_nil, batches_cons,
      batches_nil, embedBatches, mkIndex, sameDims, uploadResponse]
  exact ⟨h, c7_response_fields [] "s1" "a.pdf" ['h', 'i'] 2 1 4
    (fun b => Except.ok (b.map (fun _ => [1]))) _ h⟩

/-- Counterexample to claim C8 as stated: the JSON body the delivered
frontend posts to the retrieval chat endpoint has no field `model_name` —
the model field is keyed `model`. -/
theorem c8_counterexample :
    ¬ ("model_name" ∈ (ragChatBody "s" "hi").map Prod.fst) ∧
    "model" ∈ (ragChatBody "s" "hi").map Prod.fst := by
  constructor
  · decide
  · decide

/-- Claim C8, amended: a retrieval-mode chat request carries exactly the
fields `session_id`, `user_message` and `model` (the spec's `model_name` is
actually keyed `model`), and a successful response is the object
`{ answer, relevant_chunks_used }` whose `answer` is the text generated
from the retrieved chunks and whose `relevant_chunks_used` is the number of
chunks retrieved from the session's index. -/
theorem c8_chat_shapes (sid input : String) (qv : List ℚ) (k : ℕ)
    (generate : List String → String) (store : List Session) (s : Session)
    (hfind : store.find? (fun t => t.session_id == sid) = some s) :
    (ragChatBody sid input).map Prod.fst = ["session_id", "user_message", "model"] ∧
    ragChat store sid qv k generate =
      Except.ok [("answer",
          JVal.s (generate ((search s.index qv k).map Prod.fst))),
        ("relevant_chunks_used", JVal.n (search s.index qv k).length)] := by
  constructor
  · rfl
  · rw [ragChat, hfind]

/-- Witness for the amended C8 on a concrete one-session store. -/
theorem c8_chat_shapes_witness :
    ([⟨"s1", "a.pdf", 1, ⟨[("c", [1])]⟩⟩] : List Session).find?
        (fun t => t.session_id == "s1") =
      some ⟨"s1", "a.pdf", 1, ⟨[("c", [1])]⟩⟩ ∧
    ((ragChatBody "s1" "hi").map Prod.fst =
        ["session_id", "user_message", "model"] ∧
      ragChat [⟨"s1", "a.pdf", 1, ⟨[("c", [1])]⟩⟩] "s1" [1] 3
          (fun chunks => String.join chunks) =
        Except.ok [("answer",
            JVal.s (String.join
              ((search (⟨[("c", [1])]⟩ : VectorIndex) [1] 3).map Prod.fst))),
          ("relevant_chunks_used",
            JVal.n (search (⟨[("c", [1])]⟩ : VectorIndex) [1] 3).length)]) :=
  ⟨rfl, c8_chat_shapes "s1" "hi" [1] 3 (fun chunks => String.join chunks)
    [⟨"s1", "a.pdf", 1, ⟨[("c", [1])]⟩⟩] ⟨"s1", "a.pdf", 1, ⟨[("c", [1])]⟩⟩ rfl⟩

/-- Claim C10: selecting a file whose name does not end in `.pdf`
(case-insensitively) makes both upload handlers return without issuing any
network request and with the page state — chat messages, session/document
lists, current selection — unchanged. -/
theorem c10_nonpdf_frame (st1 : HomeState)
    (uploadResult1 : Option (List (String × JVal))) (refreshed : List RagSession)
    (st2 : PdfChatState) (uploadResult2 : Option (String × String))
    (name : String) (hname : pdfName name = false) :
    handleFileUpload1 st1 (some name) uploadResult1 refreshed =
      (st1, [FxEvent.alert "Please select a PDF file"]) ∧
    handleFileUpload2 st2 (some name) uploadResult2 =
      (st2, [FxEvent.alert "Please select a PDF file."]) ∧
    (handleFileUpload1 st1 (some name) uploadResult1 refreshed).2.filter isFetch = [] ∧
    (handleFileUpload2 st2 (some name) uploadResult2).2.filter isFetch = [] := by
  refine ⟨?_, ?_, ?_, ?_⟩ <;>
    simp [handleFileUpload1, handleFileUpload2, hname, isFetch]

/-- Witness for C10 at the concrete upper-case non-PDF filename
`"NOTES.TXT"`. -/
theorem c10_nonpdf_frame_witness :
    pdfName "NOTES.TXT" = false ∧
    (handleFileUpload1 ⟨[], none, [], false, ChatMode.general⟩ (some "NOTES.TXT")
        none [] =
      (⟨[], none, [], false, ChatMode.general⟩,
       [FxEvent.alert "Please select a PDF file"]) ∧
     handleFileUpload2 ⟨[], [], "", false⟩ (some "NOTES.TXT") none =
      (⟨[], [], "", false⟩, [FxEvent.alert "Please select a PDF file."]) ∧
     (handleFileUpload1 ⟨[], none, [], false, ChatMode.general⟩ (some "NOTES.TXT")
        none []).2.filter isFetch = [] ∧
     (handleFileUpload2 ⟨[], [], "", false⟩ (some "NOTES.TXT") none).2.filter
        isFetch = []) :=
  ⟨by decide,
   c10_nonpdf_frame ⟨[], none, [], false, ChatMode.general⟩ none []
     ⟨[], [], "", false⟩ none "NOTES.TXT" (by decide)⟩

end Rag
